import Mathlib

/-!
Shallow embedding of the rust-sorty lint (src/sorty.rs): a rustc early lint
pass that checks, per module, that the `extern crate` declarations, the
out-of-line `mod` declarations and the `use` statements are each in an
alphabetically biased order, and that emits at most one warning per sequence,
carrying a reordering suggestion.

Modelling conventions:
- Rust `String` comparison (`str::cmp`) is byte-wise lexicographic on UTF-8,
  which coincides with code-point lexicographic order; it is embedded as
  `charsCmp` on `String.data`.
- Rust `Vec::sort_by` is a stable sort under a total-preorder comparator; it
  is embedded as `List.insertionSort` with the relation `cmp a b ≠ .gt`,
  which is the same stable sort: an element is inserted into the
  already-sorted tail before the first element it is `le` to, hence after
  every element it is tied with that preceded it in the input.
- The `panic!` in `format_literal` (unreachable for well-formed metadata) is
  embedded as `Option`: `none` aborts the walk and propagates through every
  caller up to `check_mod`.
- The rustc-AST inputs (`Mod`, `Item`, `ViewPath_`, `MetaItemKind`, spans,
  the codemap's file lookup) are embedded structurally below; the codemap
  query "is the module body in the same file as its declaration" is carried
  as the Boolean field `inline` of the `mod` item kind.
-/

/-! ## Definitions: byte-lexicographic string comparison (Rust `str::cmp`) -/

/-- Lexicographic comparison of character lists: the order `str::cmp` gives
on UTF-8 strings. -/
def charsCmp : List Char → List Char → Ordering
  | [], [] => .eq
  | [], _ :: _ => .lt
  | _ :: _, [] => .gt
  | a :: as, b :: bs => if a < b then .lt else if b < a then .gt else charsCmp as bs

/-- Rust `String::cmp`, embedded on the underlying character lists. -/
def strCmp (a b : String) : Ordering := charsCmp a.data b.data

/-- Rust `str::starts_with` on strings: prefix of the character list. -/
def strStartsWith (s p : String) : Bool := p.data.isPrefixOf s.data

/-- Rust `str::ends_with` on strings: suffix of the character list. -/
def strEndsWith (s p : String) : Bool := p.data.isSuffixOf s.data

/-- The plain comparison `a ≤ b` on strings, as `Vec::<String>::sort` uses
it (`stuff.sort()` in `get_meta_as_string`). -/
def strLeP (a b : String) : Prop := strCmp a b ≠ Ordering.gt

instance : DecidableRel strLeP := fun a b => by unfold strLeP; infer_instance

/-- Common shape of the two comparators that pin one distinguished string to
the front: the relation `cmp a b ≠ Greater` for
`cmp = if a = pin then Less else if b = pin then Greater else a.cmp(b)`.
The source's `attr_vec.sort_by` comparator is this shape with
`pin = "#[macro_use]"`, and the use-list comparator with `pin = "self"`. -/
def pinnedLe (pin a b : String) : Prop :=
  (if a = pin then Ordering.lt else if b = pin then Ordering.gt else strCmp a b) ≠ Ordering.gt

/-! ## Definitions: the rustc-AST fragments the lint consumes -/

/-- A source span (`syntax::codemap::Span`), reduced to the `lo`/`hi` byte
positions the lint reads and writes. -/
structure Span where
  lo : Nat
  hi : Nat
  deriving Repr, DecidableEq

/-- The literal kinds (`syntax::ast::LitKind`) a meta item value can carry.
Only `Str` is recognized by the lint's `format_literal`. -/
inductive LitKind where
  | strLit (s : String)
  | byteStrLit (bytes : List Nat)
  | byteLit (b : Nat)
  | charLit (c : Char)
  | intLit (n : Int)
  | floatLit (repr : String)
  | boolLit (b : Bool)
  deriving Repr, DecidableEq

mutual
/-- The shape of one attribute's meta item (`syntax::ast::MetaItemKind`);
its name is carried alongside, as in `attr.meta()`. -/
inductive MetaItemKind where
  | word
  | list (items : List NestedMetaItemKind)
  | nameValue (lit : LitKind)
/-- One entry of a list-valued meta item (`syntax::ast::NestedMetaItemKind`):
either a nested meta item (name and shape) or a bare literal. -/
inductive NestedMetaItemKind where
  | metaItem (name : String) (node : MetaItemKind)
  | literal (value : LitKind)
end

/-- The visibility of an item (`syntax::ast::Visibility`), as far as the
lint inspects it: it matches `Visibility::Public` and treats every other
variant alike. -/
inductive Visibility where
  | public
  | crateVis
  | restricted
  | inherited
  deriving Repr, DecidableEq

/-- One entry of a braced use list (`PathListItem`), reduced to the bound
name and the optional rename the lint reads. The self binding is the entry
whose name is the keyword `self`. -/
structure PathListItem where
  name : String
  rename : Option String
  deriving Repr, DecidableEq

/-- The three shapes of a `use` statement (`syntax::ast::ViewPath_`). Paths
appear as their `path_to_string` rendering, which is all the lint reads of
them; the list shape also carries `path.span`, the span the lint records. -/
inductive ViewPath where
  | simple (ident : String) (path : String)
  | listPath (path : String) (pathSpan : Span) (items : List PathListItem)
  | glob (path : String)
  deriving Repr, DecidableEq

/-- The item kinds `check_mod` matches on; every other `ItemKind` falls into
`other` (the `_ => ()` arm). For `mod`, the codemap comparison
`span_to_filename(item.span) = span_to_filename(module.inner)` is carried as
the Boolean `inline` (true when both filenames are equal, i.e. the module is
inline). -/
inductive ItemKind where
  | externCrate (optionalName : Option String)
  | modItem (inline : Bool)
  | useItem (vp : ViewPath)
  | other
  deriving Repr, DecidableEq

/-- An item (`syntax::ast::Item`), reduced to what the lint reads: the
identifier, the span, the attribute meta items (each `attr.meta()` as a
name/shape pair; attributes for which `meta()` returns `None` are skipped by
the source's `filter_map` and are not modelled), the visibility and the
kind. -/
structure Item where
  name : String
  span : Span
  attrs : List (String × MetaItemKind)
  vis : Visibility
  node : ItemKind

/-! ## Definitions: attribute normalization (`format_literal`,
`get_meta_as_string`, `get_item_attrs`) -/

/-- Embeds `format_literal`: renders a string literal, and `panic!`s (here:
`none`) on every other literal kind. -/
def format_literal : LitKind → Option String
  | .strLit s => some s
  | _ => none

mutual
/-- Embeds `get_meta_as_string`: renders a meta item as `name`,
`name(sorted, entries)` or `name = "value"`; list entries are rendered
recursively and sorted (`stuff.sort()`). A `panic!` in `format_literal`
propagates as `none`. -/
def get_meta_as_string (name : String) : MetaItemKind → Option String
  | .word => some name
  | .list metaItems =>
      match get_nested_strings metaItems with
      | some stuff =>
          some (name ++ "(" ++ String.intercalate ", " (stuff.insertionSort strLeP) ++ ")")
      | none => none
  | .nameValue lit =>
      match format_literal lit with
      | some v => some (name ++ " = \x22" ++ v ++ "\x22")
      | none => none

/-- Embeds the `meta_items.iter().map(...)` body inside the list arm of
`get_meta_as_string`: renders each nested entry, propagating the `panic!`
as `none`. -/
def get_nested_strings : List NestedMetaItemKind → Option (List String)
  | [] => some []
  | item :: rest =>
      let s := match item with
        | .metaItem n node => get_meta_as_string n node
        | .literal v => format_literal v
      match s, get_nested_strings rest with
      | some hd, some tl => some (hd :: tl)
      | _, _ => none
end

/-- The comparator of the `attr_vec.sort_by` in `get_item_attrs`: the exact
string `#[macro_use]` is forced first, everything else compares as plain
strings. -/
def attrCmp (a b : String) : Ordering :=
  if a = "#[macro_use]" then .lt
  else if b = "#[macro_use]" then .gt
  else strCmp a b

/-- The relation `attrCmp a b ≠ Greater` under which the stable
`attr_vec.sort_by` sorts. -/
def attrLeP (a b : String) : Prop := attrCmp a b ≠ Ordering.gt

instance : DecidableRel attrLeP := fun a b => by unfold attrLeP; infer_instance

/-- Embeds the `filter_map` body of `get_item_attrs` applied down the
attribute list: renders each meta item, drops `doc = ` entries, wraps the
rest as `#[...]`; a `panic!` in the rendering propagates as `none`. -/
def render_attrs : List (String × MetaItemKind) → Option (List String)
  | [] => some []
  | (n, k) :: rest =>
      match get_meta_as_string n k, render_attrs rest with
      | some s, some tl =>
          if strStartsWith s "doc = " then some tl else some (("#[" ++ s ++ "]") :: tl)
      | _, _ => none

/-- Embeds `get_item_attrs`: the normalized, newline-joined attribute block
of an item, with `pub ` appended when `pub_check` is set and the item is
public. -/
def get_item_attrs (item : Item) (pub_check : Bool) : Option String :=
  match render_attrs item.attrs with
  | none => none
  | some attr_vec =>
      let sorted := attr_vec.insertionSort attrLeP
      let attr_string := String.intercalate "\x0a" sorted
      match item.vis, pub_check with
      | .public, true =>
          if attr_string = "" then some "pub " else some (attr_string ++ "\x0apub ")
      | _, _ =>
          if attr_string = "" then some attr_string else some (attr_string ++ "\x0a")

/-! ## Definitions: use-list normalization (the `ViewPathList` arm) -/

/-- Embeds the `old_list` map body of the `ViewPathList` arm: the self
binding renders as `self` (its rename is never read), every other entry as
`name` or `name as rename`. -/
def render_use_list_item (list_item : PathListItem) : String :=
  if list_item.name = "self" then "self"
  else match list_item.rename with
    | some new_name => list_item.name ++ " as " ++ new_name
    | none => list_item.name

/-- The comparator of `new_list.sort_by` in the `ViewPathList` arm: `self`
is forced first, everything else compares as plain strings. -/
def useCmp (a b : String) : Ordering :=
  if a = "self" then .lt
  else if b = "self" then .gt
  else strCmp a b

/-- The relation `useCmp a b ≠ Greater` under which the stable
`new_list.sort_by` sorts. -/
def useLeP (a b : String) : Prop := useCmp a b ≠ Ordering.gt

instance : DecidableRel useLeP := fun a b => by unfold useLeP; infer_instance

/-! ## Definitions: declaration records and `check_sort` -/

/-- One element of the `extern_crates` / `mods` / `uses` vectors: the tuple
`(String, String, Span, bool)` of display name, attribute block, span, and
the use-list-internally-unsorted flag. -/
structure DeclRecord where
  name : String
  attrs : String
  span : Span
  warn : Bool
  deriving Repr, DecidableEq

/-- One element of the `new_list` in `check_sort`: the projected triple
`(name.clone(), attrs.clone(), warn)`. -/
structure SortRec where
  name : String
  attrs : String
  warn : Bool
  deriving Repr, DecidableEq

/-- Embeds `str_for_biased_sort`: prepend `prepend_char` when `choice`
holds. -/
def str_for_biased_sort (string : String) (choice : Bool) (prepend_char : String) : String :=
  if choice then prepend_char ++ string else string

/-- The biased key the `check_sort` comparator compares: a `~` is prepended
when the attribute block ends in `pub ` (pushing public declarations to the
end), then a `!` is prepended when it starts with `#[macro_use]` (pulling
those declarations to the front). -/
def sortKey (name attrs : String) : String :=
  let k := str_for_biased_sort name (strEndsWith attrs "pub ") "~"
  str_for_biased_sort k (strStartsWith attrs "#[macro_use]") "!"

/-- The relation of the stable `new_list.sort_by` in `check_sort`:
`new_str_a.cmp(&new_str_b) ≠ Greater` on the biased keys. -/
def recordLeP (a b : SortRec) : Prop :=
  strCmp (sortKey a.name a.attrs) (sortKey b.name b.attrs) ≠ Ordering.gt

instance : DecidableRel recordLeP := fun a b => by unfold recordLeP; infer_instance

/-- The `new_list` of `check_sort` after its `sort_by`: the projected
triples, stably sorted under the biased comparator. -/
def canonical (old : List DeclRecord) : List SortRec :=
  (old.map fun r => SortRec.mk r.name r.attrs r.warn).insertionSort recordLeP

/-- The scan loop of `check_sort`: zip the original list with the sorted one
and return the index of the first position whose names differ or whose
sorted record carries the use-list warning flag; `none` when no position
does. -/
def firstDivergence : List DeclRecord → List SortRec → Option Nat
  | o :: os, n :: ns =>
      if o.name != n.name || n.warn then some 0
      else (firstDivergence os ns).map (· + 1)
  | _, _ => none

/-- One emitted lint: the span, message and help text passed to
`cx.span_lint_help(UNSORTED_DECLARATIONS, ...)`. -/
structure Diagnostic where
  span : Span
  message : String
  suggestion : String
  deriving Repr, DecidableEq

/-- The warning branch of `check_sort` at divergence index `i`: the
suggestion renders every sorted record from `i` on as
`{attrs}{syntax} {name};`, and the span runs from the divergent original
record's start to the last original record's end. -/
def emitDiagnostic (old : List DeclRecord) (kind syn : String) (i : Nat) : Diagnostic :=
  { span := { lo := (((old.drop i).head?.map fun r => r.span.lo).getD 0),
              hi := ((old.getLast?.map fun r => r.span.hi).getD 0) },
    message := kind ++ " should be in alphabetical order!",
    suggestion := "Try this...\x0a\x0a"
      ++ String.intercalate "\x0a"
           (((canonical old).drop i).map fun n => n.attrs ++ syn ++ " " ++ n.name ++ ";")
      ++ "\x0a" }

/-- Embeds `check_sort`: sort the sequence under the biased comparator, scan
for the first divergence, and emit one warning there (the loop `break`s
after the first hit), or none when the sequence is already canonical. -/
def check_sort (old : List DeclRecord) (kind syn : String) : Option Diagnostic :=
  (firstDivergence old (canonical old)).map (emitDiagnostic old kind syn)

/-! ## Definitions: the module walk (`check_mod`) -/

/-- The running state of the item loop in `check_mod`: the `extern_crates`,
`mods` and `uses` vectors. -/
structure ModLists where
  extern_crates : List DeclRecord
  mods : List DeclRecord
  uses : List DeclRecord
  deriving Repr, DecidableEq

/-- Rust `str::split(sep)` for a one-character separator, on the character
list: every occurrence separates, empty pieces are kept, and the result is
never empty. -/
def splitChar (sep : Char) : List Char → List (List Char)
  | [] => [[]]
  | c :: rest =>
      match splitChar sep rest with
      | [] => [[]]
      | g :: gs => if c = sep then [] :: g :: gs else (c :: g) :: gs

/-- The `path_str.split(":")` of the `ViewPathSimple` arm. -/
def splitColons (path : String) : List String :=
  (splitChar ':' path.data).map String.mk

/-- The body of the `for item in &module.items` loop of `check_mod`:
classify one item into the three sequences. A `panic!` inside
`get_item_attrs` is `none` and aborts the walk. -/
def process_item (acc : ModLists) (item : Item) : Option ModLists :=
  match item.node with
  | .externCrate optionalName =>
      if item.name ≠ "std" then
        match get_item_attrs item false with
        | none => none
        | some attrs0 =>
            let item_attrs := match optionalName with
              | some old_name => attrs0 ++ "extern crate " ++ old_name ++ " as"
              | none => attrs0 ++ "extern crate"
            some { acc with
                   extern_crates :=
                     acc.extern_crates ++ [⟨item.name, item_attrs, item.span, false⟩] }
      else some acc
  | .modItem inline =>
      if inline then some acc
      else
        match get_item_attrs item true with
        | none => none
        | some item_attrs =>
            some { acc with mods := acc.mods ++ [⟨item.name, item_attrs, item.span, false⟩] }
  | .useItem vp =>
      match get_item_attrs item true with
      | none => none
      | some item_attrs =>
          match vp with
          | .simple ident path =>
              let split := splitColons path
              let renamed :=
                if split.getLastD "" = ident then path else path ++ " as " ++ ident
              some { acc with uses := acc.uses ++ [⟨renamed, item_attrs, item.span, false⟩] }
          | .listPath path pathSpan items =>
              let old_list := items.map render_use_list_item
              let new_list := old_list.insertionSort useLeP
              let warn := (old_list.zip new_list).any fun p => p.1 != p.2
              let use_list := path ++ "::\x7b" ++ String.intercalate ", " new_list ++ "\x7d"
              some { acc with uses := acc.uses ++ [⟨use_list, item_attrs, pathSpan, warn⟩] }
          | .glob path =>
              let path_str := path ++ "::*"
              if strStartsWith path_str "std::" then some acc
              else some { acc with uses := acc.uses ++ [⟨path_str, item_attrs, item.span, false⟩] }
  | .other => some acc

/-- Embeds `check_mod`: classify the module's items and run `check_sort`
over the three sequences, in the source's order (crates, modules, uses).
The result is `none` when the walk `panic!`s, and otherwise the list of
emitted warnings. -/
def check_mod (items : List Item) : Option (List Diagnostic) :=
  match items.foldlM process_item ⟨[], [], []⟩ with
  | none => none
  | some lists =>
      some (([check_sort lists.extern_crates "crate declarations" "",
              check_sort lists.mods "module declarations (other than inline modules)" "mod",
              check_sort lists.uses "use statements" "use"]).filterMap id)

/-! ## Definitions: predicates the claims are stated with -/

/-- Divergence of two zipped record lists at position `i`: both lists reach
`i` and there the names differ or the sorted record carries the use-list
warning flag — the condition of the scan loop of `check_sort`. -/
def divAt (os : List DeclRecord) (ns : List SortRec) (i : Nat) : Bool :=
  match os[i]?, ns[i]? with
  | some o, some n => o.name != n.name || n.warn
  | _, _ => false

/-- Divergence of a sequence from its canonical (biased-sorted) order at
position `i`. -/
def divergesAt (old : List DeclRecord) (i : Nat) : Bool :=
  divAt old (canonical old) i

/-- The public-bias stage of the biased key: the display name with `~`
prepended when the attribute block ends in `pub `. -/
def pubBiasedName (r : SortRec) : String :=
  str_for_biased_sort r.name (strEndsWith r.attrs "pub ") "~"

/-- Whether a record's attribute block starts with the exact string
`#[macro_use]` — the condition under which the `check_sort` comparator
prepends its front sentinel. -/
def hasMacroUseAttr (r : SortRec) : Bool :=
  strStartsWith r.attrs "#[macro_use]"

/-- A record whose public-biased name starts with an ordinary printable
character, i.e. one strictly above the front sentinel `!` — true for every
record the classifier builds from real declarations. -/
def nameOk (r : SortRec) : Bool :=
  match (pubBiasedName r).data with
  | c :: _ => decide ('!' < c)
  | [] => false

/-- Whether a literal is of the one kind `format_literal` recognizes. -/
def is_str_lit : LitKind → Bool
  | .strLit _ => true
  | _ => false

mutual
/-- Whether every literal value in a meta item is a string literal — the
condition under which `get_meta_as_string` cannot `panic!`. -/
def lits_ok : MetaItemKind → Bool
  | .word => true
  | .list items => nested_lits_ok items
  | .nameValue lit => is_str_lit lit

/-- Pointwise `lits_ok` over the entries of a list-valued meta item. -/
def nested_lits_ok : List NestedMetaItemKind → Bool
  | [] => true
  | .metaItem _ k :: rest => lits_ok k && nested_lits_ok rest
  | .literal v :: rest => is_str_lit v && nested_lits_ok rest
end

/-- One permutation step on a meta item: either leave it unchanged, or
permute the entries of a list-valued meta item (subtrees unchanged). -/
inductive MetaPermStep : MetaItemKind → MetaItemKind → Prop where
  | refl (k : MetaItemKind) : MetaPermStep k k
  | listPerm {xs ys : List NestedMetaItemKind} (h : xs.Perm ys) :
      MetaPermStep (.list xs) (.list ys)

/-- Two attribute entries with the same name whose shapes differ by at most
a permutation of the entries of a list-valued meta item. -/
def AttrEquiv (a b : String × MetaItemKind) : Prop :=
  a.1 = b.1 ∧ MetaPermStep a.2 b.2

/-- Two attribute lists that differ by a permutation of the source
attribute order composed with permutations of the entries inside
list-valued meta items. -/
def AttrsPermEquiv (xs ys : List (String × MetaItemKind)) : Prop :=
  ∃ mid, List.Forall₂ AttrEquiv xs mid ∧ mid.Perm ys

/-! ## Definitions: concrete scenario inputs -/

/-- Module `use std::fmt; use alpha::Bar; use beta::Baz;` (claim C1). -/
def c1items : List Item :=
  [ ⟨"fmt", ⟨0, 13⟩, [], .inherited, .useItem (.simple "fmt" "std::fmt")⟩,
    ⟨"Bar", ⟨14, 28⟩, [], .inherited, .useItem (.simple "Bar" "alpha::Bar")⟩,
    ⟨"Baz", ⟨29, 43⟩, [], .inherited, .useItem (.simple "Baz" "beta::Baz")⟩ ]

/-- A crate-declaration sequence with more than one out-of-order pair, used
to exercise the first-divergence-only behaviour (claim C2). -/
def c2old : List DeclRecord :=
  [ ⟨"c", "extern crate", ⟨0, 15⟩, false⟩,
    ⟨"b", "extern crate", ⟨16, 31⟩, false⟩,
    ⟨"a", "extern crate", ⟨32, 47⟩, false⟩ ]

/-- Module `use foo::{c, a, self, b};` (claim C3). -/
def c3items : List Item :=
  [ ⟨"foo", ⟨0, 25⟩, [], .inherited,
      .useItem (.listPath "foo" ⟨4, 7⟩
        [⟨"c", none⟩, ⟨"a", none⟩, ⟨"self", none⟩, ⟨"b", none⟩])⟩ ]

/-- A use list containing the self binding, for the witness of claim C3. -/
def c3witnessItems : List PathListItem :=
  [⟨"b", none⟩, ⟨"self", none⟩, ⟨"a", some "z"⟩]

/-- Module `pub mod b; mod a;`, both out-of-line (claim C4). -/
def c4aItems : List Item :=
  [ ⟨"b", ⟨0, 10⟩, [], .public, .modItem false⟩,
    ⟨"a", ⟨11, 17⟩, [], .inherited, .modItem false⟩ ]

/-- Module `pub mod a; mod b;`, both out-of-line (claim C4). -/
def c4bItems : List Item :=
  [ ⟨"a", ⟨0, 10⟩, [], .public, .modItem false⟩,
    ⟨"b", ⟨11, 17⟩, [], .inherited, .modItem false⟩ ]

/-- A module-declaration sequence with two `#[macro_use]` records whose
names sort after the plain record's, for the witness of claim C5. -/
def c5old : List DeclRecord :=
  [ ⟨"a", "", ⟨0, 6⟩, false⟩,
    ⟨"z", "#[macro_use]\x0a", ⟨7, 20⟩, false⟩,
    ⟨"y", "#[macro_use]\x0a", ⟨21, 34⟩, false⟩ ]

/-- Module `extern crate zeta; extern crate alpha as zz;` (claim C6). -/
def c6items : List Item :=
  [ ⟨"zeta", ⟨0, 18⟩, [], .inherited, .externCrate none⟩,
    ⟨"zz", ⟨19, 44⟩, [], .inherited, .externCrate (some "alpha")⟩ ]

/-- A module-declaration sequence diverging at position 0, for the witness
of claim C7. -/
def c7old : List DeclRecord :=
  [ ⟨"b", "", ⟨0, 6⟩, false⟩,
    ⟨"c", "", ⟨7, 13⟩, false⟩,
    ⟨"a", "", ⟨14, 20⟩, false⟩ ]

/-- An attribute list: `#[cold]` then `#[cfg(unix, windows)]` with the
nested entries in one order (claim C9). -/
def c9attrsA : List (String × MetaItemKind) :=
  [ ("cold", .word),
    ("cfg", .list [.metaItem "unix" .word, .metaItem "windows" .word]) ]

/-- The middle form for claim C9: each entry of `c9attrsA` with its nested
list entries permuted, before permuting the attribute order itself. -/
def c9attrsMid : List (String × MetaItemKind) :=
  [ ("cold", .word),
    ("cfg", .list [.metaItem "windows" .word, .metaItem "unix" .word]) ]

/-- The same attribute set as `c9attrsA` with the source order of the
attributes and of the nested list entries both permuted (claim C9). -/
def c9attrsB : List (String × MetaItemKind) :=
  [ ("cfg", .list [.metaItem "windows" .word, .metaItem "unix" .word]),
    ("cold", .word) ]

/-- An item carrying the parameterized attribute `#[macro_use(lazy_static)]`
and `#[cold]` (claim C10). -/
def c10ParamItem : Item :=
  ⟨"x", ⟨0, 1⟩, [("macro_use", .list [.metaItem "lazy_static" .word]), ("cold", .word)],
    .inherited, .modItem false⟩

/-- An item carrying the bare attribute `#[macro_use]` and `#[cold]`
(claim C10). -/
def c10BareItem : Item :=
  ⟨"x", ⟨0, 1⟩, [("macro_use", .word), ("cold", .word)], .inherited, .modItem false⟩

/-- A record whose attribute block is the parameterized
`#[macro_use(lazy_static)]` (claim C10). -/
def c10ParamRec : SortRec := ⟨"zeta", "#[macro_use(lazy_static)]\x0a", false⟩

/-- A record with no attributes (claim C10). -/
def c10PlainRec : SortRec := ⟨"alpha", "", false⟩

/-- A record whose attribute block is the bare `#[macro_use]` (claim C10). -/
def c10BareRec : SortRec := ⟨"zeta", "#[macro_use]\x0a", false⟩

/-! ## Theorems: the string comparison is a total preorder -/

theorem charsCmp_refl (a : List Char) : charsCmp a a = .eq := by
  induction a with
  | nil => rfl
  | cons x xs ih => simp [charsCmp, ih, lt_irrefl]

theorem charsCmp_eq_iff {a b : List Char} : charsCmp a b = .eq ↔ a = b := by
  constructor
  · induction a generalizing b with
    | nil => cases b with
      | nil => intro; rfl
      | cons y ys => intro h; simp [charsCmp] at h
    | cons x xs ih =>
      cases b with
      | nil => intro h; simp [charsCmp] at h
      | cons y ys =>
        intro h
        simp only [charsCmp] at h
        split at h
        · exact absurd h (by simp)
        · split at h
          · exact absurd h (by simp)
          · have hxy : x = y :=
              le_antisymm (le_of_not_lt (by assumption)) (le_of_not_lt (by assumption))
            rw [hxy, ih h]
  · intro h; rw [h]; exact charsCmp_refl b

theorem charsCmp_swap (a b : List Char) : charsCmp b a = (charsCmp a b).swap := by
  induction a generalizing b with
  | nil => cases b <;> rfl
  | cons x xs ih =>
    cases b with
    | nil => rfl
    | cons y ys =>
      simp only [charsCmp]
      rcases lt_trichotomy x y with h | h | h
      · simp [h, not_lt_of_gt h, Ordering.swap]
      · simp [h, lt_irrefl, ih ys]
      · simp [h, not_lt_of_gt h, Ordering.swap]

theorem charsCmp_le_trans {a b c : List Char} (h₁ : charsCmp a b ≠ .gt)
    (h₂ : charsCmp b c ≠ .gt) : charsCmp a c ≠ .gt := by
  induction a generalizing b c with
  | nil => cases c <;> simp [charsCmp]
  | cons x xs ih =>
    cases b with
    | nil => simp [charsCmp] at h₁
    | cons y ys =>
      cases c with
      | nil => simp [charsCmp] at h₂
      | cons z zs =>
        simp only [charsCmp] at h₁ h₂ ⊢
        rcases lt_trichotomy x y with hxy | hxy | hxy
        · rcases lt_trichotomy y z with hyz | hyz | hyz
          · simp [lt_trans hxy hyz]
          · subst hyz; simp [hxy]
          · simp [hyz, not_lt_of_gt hyz] at h₂
        · subst hxy
          rcases lt_trichotomy x z with hxz | hxz | hxz
          · simp [hxz]
          · subst hxz
            simp [lt_irrefl] at h₁ h₂ ⊢
            exact ih h₁ h₂
          · simp [hxz, not_lt_of_gt hxz] at h₂
        · simp [hxy, not_lt_of_gt hxy] at h₁

theorem charsCmp_total (a b : List Char) : charsCmp a b ≠ .gt ∨ charsCmp b a ≠ .gt := by
  rcases h : charsCmp a b with hh | hh | hh
  · left; simp [h]
  · left; simp [h]
  · right; rw [charsCmp_swap, h]; simp [Ordering.swap]

theorem charsCmp_antisymm {a b : List Char} (h₁ : charsCmp a b ≠ .gt)
    (h₂ : charsCmp b a ≠ .gt) : a = b := by
  rcases h : charsCmp a b with hh | hh | hh
  · rw [charsCmp_swap, h] at h₂; simp [Ordering.swap] at h₂
  · exact charsCmp_eq_iff.mp h
  · exact absurd h h₁

theorem strCmp_le_trans {a b c : String} (h₁ : strCmp a b ≠ .gt) (h₂ : strCmp b c ≠ .gt) :
    strCmp a c ≠ .gt := charsCmp_le_trans h₁ h₂

theorem strCmp_total (a b : String) : strCmp a b ≠ .gt ∨ strCmp b a ≠ .gt :=
  charsCmp_total a.data b.data

theorem strCmp_antisymm {a b : String} (h₁ : strCmp a b ≠ .gt) (h₂ : strCmp b a ≠ .gt) :
    a = b := by
  have := charsCmp_antisymm h₁ h₂
  cases a; cases b; exact congrArg String.mk this

instance : IsTrans String strLeP := ⟨fun _ _ _ => strCmp_le_trans⟩

instance : IsTotal String strLeP := ⟨fun a b => strCmp_total a b⟩

instance : IsAntisymm String strLeP := ⟨fun _ _ => strCmp_antisymm⟩

theorem pinnedLe_trans {pin a b c : String} (h₁ : pinnedLe pin a b) (h₂ : pinnedLe pin b c) :
    pinnedLe pin a c := by
  unfold pinnedLe at h₁ h₂ ⊢
  by_cases ha : a = pin
  · simp [ha]
  · simp only [ha, if_false] at h₁ ⊢
    by_cases hb : b = pin
    · simp [hb] at h₁
    · simp only [hb, if_false] at h₁ h₂
      by_cases hc : c = pin
      · simp [hc] at h₂
      · simp only [hc, if_false] at h₂ ⊢
        exact strCmp_le_trans h₁ h₂

theorem pinnedLe_total (pin a b : String) : pinnedLe pin a b ∨ pinnedLe pin b a := by
  unfold pinnedLe
  by_cases ha : a = pin
  · left; simp [ha]
  · by_cases hb : b = pin
    · right; simp [hb]
    · simp only [ha, hb, if_false]
      exact strCmp_total a b

theorem pinnedLe_antisymm {pin a b : String} (h₁ : pinnedLe pin a b) (h₂ : pinnedLe pin b a) :
    a = b := by
  unfold pinnedLe at h₁ h₂
  by_cases ha : a = pin
  · by_cases hb : b = pin
    · rw [ha, hb]
    · simp [ha, hb] at h₂
  · by_cases hb : b = pin
    · simp [ha, hb] at h₁
    · simp only [ha, hb, if_false] at h₁ h₂
      exact strCmp_antisymm h₁ h₂

instance : IsTrans String attrLeP :=
  ⟨fun _ _ _ h₁ h₂ => @pinnedLe_trans "#[macro_use]" _ _ _ h₁ h₂⟩

instance : IsTotal String attrLeP :=
  ⟨fun a b => pinnedLe_total "#[macro_use]" a b⟩

instance : IsAntisymm String attrLeP :=
  ⟨fun _ _ h₁ h₂ => @pinnedLe_antisymm "#[macro_use]" _ _ h₁ h₂⟩

instance : IsTrans String useLeP :=
  ⟨fun _ _ _ h₁ h₂ => @pinnedLe_trans "self" _ _ _ h₁ h₂⟩

instance : IsTotal String useLeP :=
  ⟨fun a b => pinnedLe_total "self" a b⟩

instance : IsAntisymm String useLeP :=
  ⟨fun _ _ h₁ h₂ => @pinnedLe_antisymm "self" _ _ h₁ h₂⟩

instance : IsTrans SortRec recordLeP := ⟨fun _ _ _ => strCmp_le_trans⟩

instance : IsTotal SortRec recordLeP :=
  ⟨fun a b => strCmp_total (sortKey a.name a.attrs) (sortKey b.name b.attrs)⟩

/-- Two lists that are permutations of one another have the same stable
sort under a total, transitive, antisymmetric relation. -/
theorem insertionSort_eq_of_perm {α : Type} (r : α → α → Prop) [DecidableRel r]
    [IsTotal α r] [IsTrans α r] [IsAntisymm α r] {l₁ l₂ : List α} (h : l₁.Perm l₂) :
    l₁.insertionSort r = l₂.insertionSort r :=
  List.eq_of_perm_of_sorted
    (((List.perm_insertionSort r l₁).trans h).trans (List.perm_insertionSort r l₂).symm)
    (List.sorted_insertionSort r l₁) (List.sorted_insertionSort r l₂)

/-! ## Theorems: the divergence scan of `check_sort` -/

theorem head?_drop_eq_getElem? {α : Type} (l : List α) (i : Nat) :
    (l.drop i).head? = l[i]? := by
  induction l generalizing i with
  | nil => simp
  | cons a l ih =>
    cases i with
    | zero => simp
    | succ n => simp [ih n]

theorem divAt_nil_left (ns : List SortRec) (i : Nat) : divAt [] ns i = false := by
  unfold divAt; simp

theorem divAt_nil_right (os : List DeclRecord) (i : Nat) : divAt os [] i = false := by
  unfold divAt
  cases os[i]? <;> simp

theorem divAt_cons_zero (o : DeclRecord) (os : List DeclRecord) (n : SortRec)
    (ns : List SortRec) : divAt (o :: os) (n :: ns) 0 = (o.name != n.name || n.warn) := by
  unfold divAt
  rw [List.getElem?_cons_zero, List.getElem?_cons_zero]

theorem divAt_cons_succ (o : DeclRecord) (os : List DeclRecord) (n : SortRec)
    (ns : List SortRec) (i : Nat) : divAt (o :: os) (n :: ns) (i + 1) = divAt os ns i := by
  unfold divAt
  rw [List.getElem?_cons_succ, List.getElem?_cons_succ]

theorem divAt_true_getElem {os : List DeclRecord} {ns : List SortRec} {i : Nat}
    (h : divAt os ns i = true) :
    ∃ o n, os[i]? = some o ∧ ns[i]? = some n ∧ (o.name != n.name || n.warn) = true := by
  unfold divAt at h
  rcases ho : os[i]? with _ | o
  · rw [ho] at h; simp at h
  · rcases hn : ns[i]? with _ | n
    · rw [ho, hn] at h; simp at h
    · rw [ho, hn] at h
      exact ⟨o, n, rfl, rfl, h⟩

theorem firstDivergence_isSome_iff (os : List DeclRecord) (ns : List SortRec) :
    (firstDivergence os ns).isSome = true ↔ ∃ i, divAt os ns i = true := by
  induction os generalizing ns with
  | nil =>
    simp [firstDivergence, divAt_nil_left]
  | cons o os ih =>
    cases ns with
    | nil => simp [firstDivergence, divAt_nil_right]
    | cons n ns =>
      by_cases hc : (o.name != n.name || n.warn) = true
      · constructor
        · intro; exact ⟨0, by rw [divAt_cons_zero]; exact hc⟩
        · intro; simp [firstDivergence, hc]
      · have hfd : firstDivergence (o :: os) (n :: ns)
            = (firstDivergence os ns).map (· + 1) := by
          simp [firstDivergence, hc]
        rw [hfd]
        constructor
        · intro hs
          rcases (by simpa using hs : (firstDivergence os ns).isSome = true) with hs
          rcases (ih ns).mp hs with ⟨i, hi⟩
          exact ⟨i + 1, by rw [divAt_cons_succ]; exact hi⟩
        · rintro ⟨i, hi⟩
          cases i with
          | zero => rw [divAt_cons_zero] at hi; exact absurd hi hc
          | succ m =>
            rw [divAt_cons_succ] at hi
            have := (ih ns).mpr ⟨m, hi⟩
            simpa using this
      
theorem firstDivergence_some_spec {os : List DeclRecord} {ns : List SortRec} {i : Nat}
    (h : firstDivergence os ns = some i) :
    divAt os ns i = true ∧ ∀ j, j < i → divAt os ns j = false := by
  induction os generalizing ns i with
  | nil => simp [firstDivergence] at h
  | cons o os ih =>
    cases ns with
    | nil => simp [firstDivergence] at h
    | cons n ns =>
      by_cases hc : (o.name != n.name || n.warn) = true
      · have : i = 0 := by simpa [firstDivergence, hc] using h.symm
        subst this
        exact ⟨by rw [divAt_cons_zero]; exact hc, fun j hj => absurd hj (Nat.not_lt_zero j)⟩
      · have hfd : (firstDivergence os ns).map (· + 1) = some i := by
          simpa [firstDivergence, hc] using h
        rcases Option.map_eq_some'.mp hfd with ⟨m, hm, rfl⟩
        rcases ih hm with ⟨h₁, h₂⟩
        refine ⟨by rw [divAt_cons_succ]; exact h₁, ?_⟩
        intro j hj
        cases j with
        | zero =>
          rw [divAt_cons_zero]
          exact Bool.not_eq_true _ ▸ (by simpa using hc)
        | succ k =>
          rw [divAt_cons_succ]
          exact h₂ k (Nat.lt_of_succ_lt_succ hj)

theorem firstDivergence_of_least {os : List DeclRecord} {ns : List SortRec} {i : Nat}
    (h₁ : divAt os ns i = true) (h₂ : ∀ j, j < i → divAt os ns j = false) :
    firstDivergence os ns = some i := by
  induction os generalizing ns i with
  | nil => rw [divAt_nil_left] at h₁; exact absurd h₁ (by simp)
  | cons o os ih =>
    cases ns with
    | nil => rw [divAt_nil_right] at h₁; exact absurd h₁ (by simp)
    | cons n ns =>
      cases i with
      | zero =>
        rw [divAt_cons_zero] at h₁
        simp [firstDivergence, h₁]
      | succ m =>
        have hz : divAt (o :: os) (n :: ns) 0 = false := h₂ 0 (Nat.succ_pos m)
        rw [divAt_cons_zero] at hz
        rw [divAt_cons_succ] at h₁
        have hrec : firstDivergence os ns = some m :=
          ih h₁ (fun j hj => by
            have := h₂ (j + 1) (Nat.succ_lt_succ hj)
            rwa [divAt_cons_succ] at this)
        simp [firstDivergence, hz, hrec]

/-! ## Claims C2 and C7: divergence detection, diagnostic anchoring -/

/-- C2: for every declaration sequence handed to `check_sort` (each of the
three sequences of a module), a diagnostic is emitted iff some position `i`
diverges — the original record's display name differs from the canonical
record's at `i`, or the canonical record at `i` has the force-warn flag —
and the single emitted diagnostic (the `Option` result holds at most one)
is the one anchored at the first such position, regardless of how many
later positions also diverge. -/
theorem c2_check_sort_emits_iff_first_divergence (old : List DeclRecord) (kind syn : String) :
    ((check_sort old kind syn).isSome = true ↔ ∃ i, divergesAt old i = true) ∧
    ∀ i, divergesAt old i = true → (∀ j, j < i → divergesAt old j = false) →
      check_sort old kind syn = some (emitDiagnostic old kind syn i) := by
  constructor
  · constructor
    · intro hs
      apply (firstDivergence_isSome_iff old (canonical old)).mp
      unfold check_sort at hs
      cases h : firstDivergence old (canonical old) with
      | none => rw [h] at hs; simp at hs
      | some i => simp
    · intro hex
      have hs := (firstDivergence_isSome_iff old (canonical old)).mpr hex
      unfold check_sort
      cases h : firstDivergence old (canonical old) with
      | none => rw [h] at hs; simp at hs
      | some i => simp
  · intro i h₁ h₂
    unfold check_sort
    rw [firstDivergence_of_least h₁ h₂]
    rfl

/-- Witness for C2: the sequence `c, b, a` has divergences at every
position; exactly the diagnostic anchored at position 0 is emitted. -/
theorem c2_witness :
    check_sort c2old "crate declarations" "" =
      some (emitDiagnostic c2old "crate declarations" "" 0) :=
  (c2_check_sort_emits_iff_first_divergence c2old "crate declarations" "").2 0 (by decide)
    (fun j hj => absurd hj (Nat.not_lt_zero j))

/-- C7: whenever `check_sort` emits a diagnostic, there is a first divergent
index `i` such that the diagnostic's span starts at the span start of the
original record at `i` and ends at the span end of the last original record
of the sequence, and its message is exactly
`<kind> should be in alphabetical order!`. -/
theorem c7_diagnostic_span_and_message (old : List DeclRecord) (kind syn : String)
    (d : Diagnostic) (h : check_sort old kind syn = some d) :
    d.message = kind ++ " should be in alphabetical order!" ∧
    ∃ i o last, divergesAt old i = true ∧ (∀ j, j < i → divergesAt old j = false) ∧
      old[i]? = some o ∧ old.getLast? = some last ∧
      d.span.lo = o.span.lo ∧ d.span.hi = last.span.hi := by
  unfold check_sort at h
  rcases Option.map_eq_some'.mp h with ⟨i, hfd, rfl⟩
  rcases firstDivergence_some_spec hfd with ⟨h₁, h₂⟩
  rcases divAt_true_getElem h₁ with ⟨o, n, ho, hn, hcond⟩
  have hne : old ≠ [] := by
    intro he; subst he; simp at ho
  have hlast : old.getLast?.isSome := List.getLast?_isSome.mpr hne
  rcases Option.isSome_iff_exists.mp hlast with ⟨last, hlasteq⟩
  refine ⟨rfl, i, o, last, h₁, h₂, ho, hlasteq, ?_, ?_⟩
  · show ((old.drop i).head?.map fun r => r.span.lo).getD 0 = o.span.lo
    rw [head?_drop_eq_getElem?, ho]
    rfl
  · show (old.getLast?.map fun r => r.span.hi).getD 0 = last.span.hi
    rw [hlasteq]
    rfl

/-- Witness for C7: a sequence diverging at position 0; the emitted span
runs from that record's start to the last record's end, with the expected
message. -/
theorem c7_witness :
    (emitDiagnostic c7old "module declarations (other than inline modules)" "mod" 0).message
        = "module declarations (other than inline modules)"
            ++ " should be in alphabetical order!" ∧
    ∃ i o last, divergesAt c7old i = true ∧ (∀ j, j < i → divergesAt c7old j = false) ∧
      c7old[i]? = some o ∧ c7old.getLast? = some last ∧
      (emitDiagnostic c7old "module declarations (other than inline modules)" "mod" 0).span.lo
          = o.span.lo ∧
      (emitDiagnostic c7old "module declarations (other than inline modules)" "mod" 0).span.hi
          = last.span.hi :=
  c7_diagnostic_span_and_message c7old "module declarations (other than inline modules)" "mod"
    (emitDiagnostic c7old "module declarations (other than inline modules)" "mod" 0)
    (by decide)

/-! ## Claims C1, C3, C4, C6: concrete scenario behaviour -/

/-- C1 counterexample: for the module `use std::fmt; use alpha::Bar;
use beta::Baz;` the single emitted warning's suggestion also lists
`use std::fmt;` — the simple import of the standard library is NOT excluded
from the sortable use sequence (only `std::` glob imports and the `std`
extern-crate declaration are excluded), refuting the claim as stated. -/
theorem c1_counterexample :
    (check_mod c1items).map (List.map Diagnostic.suggestion) =
      some ["Try this...\x0a\x0ause alpha::Bar;\x0ause beta::Baz;\x0ause std::fmt;\x0a"] := by
  decide

/-- C1 (amended): for the module `use std::fmt; use alpha::Bar;
use beta::Baz;` the checker emits exactly one warning on the use-statement
group, and the suggestion lists `use alpha::Bar;`, `use beta::Baz;` and
`use std::fmt;` — the simple std import takes part in the sortable
sequence. -/
theorem c1_std_simple_import_included :
    check_mod c1items =
      some [⟨⟨0, 43⟩, "use statements should be in alphabetical order!",
        "Try this...\x0a\x0ause alpha::Bar;\x0ause beta::Baz;\x0ause std::fmt;\x0a"⟩] := by
  decide

/-- C3: in the canonically sorted rendering of a braced import list that
contains the self binding, `self` is always first, regardless of its source
position and of the other members' names; concretely,
`use foo::{c, a, self, b};` produces a record marked internally unsorted
(force-warn true), one warning is emitted, and the suggested rendering is
`use foo::{self, a, b, c};`. -/
theorem c3_self_binding_first :
    (∀ (items : List PathListItem), (∃ it ∈ items, it.name = "self") →
      ((items.map render_use_list_item).insertionSort useLeP).head? = some "self") ∧
    c3items.foldlM process_item ⟨[], [], []⟩ =
      some ⟨[], [], [⟨"foo::\x7bself, a, b, c\x7d", "", ⟨4, 7⟩, true⟩]⟩ ∧
    check_mod c3items =
      some [⟨⟨4, 7⟩, "use statements should be in alphabetical order!",
        "Try this...\x0a\x0ause foo::\x7bself, a, b, c\x7d;\x0a"⟩] := by
  refine ⟨?_, by decide, by decide⟩
  rintro items ⟨it, hmem, hname⟩
  have hself : "self" ∈ items.map render_use_list_item :=
    List.mem_map.mpr ⟨it, hmem, by simp [render_use_list_item, hname]⟩
  have hmem2 : "self" ∈ (items.map render_use_list_item).insertionSort useLeP :=
    (List.mem_insertionSort useLeP).mpr hself
  have hsorted : ((items.map render_use_list_item).insertionSort useLeP).Sorted useLeP :=
    List.sorted_insertionSort useLeP (items.map render_use_list_item)
  cases hsl : (items.map render_use_list_item).insertionSort useLeP with
  | nil => rw [hsl] at hmem2; simp at hmem2
  | cons h t =>
    rw [hsl] at hmem2 hsorted
    have hh : h = "self" := by
      rcases List.mem_cons.mp hmem2 with hh | hh
      · exact hh.symm
      · by_contra hne
        have hrel := List.rel_of_sorted_cons hsorted "self" hh
        simp [useLeP, useCmp, hne] at hrel
    rw [hh]
    rfl

/-- Witness for C3: a use list containing the self binding out of position;
the sorted rendering starts with `self`. -/
theorem c3_witness :
    ((c3witnessItems.map render_use_list_item).insertionSort useLeP).head? = some "self" :=
  c3_self_binding_first.1 c3witnessItems ⟨⟨"self", none⟩, by decide, rfl⟩

/-- C4 counterexample: for the module `pub mod b; mod a;` (both
out-of-line) the checker emits one warning — the canonical order `a, b`
differs from the source order `b, a`, refuting the claim that no warning is
emitted there. -/
theorem c4_counterexample :
    (check_mod c4aItems).map List.length = some 1 := by decide

/-- C4 (amended): a public declaration still sorts after a private one with
otherwise-equal bias, but for `pub mod b; mod a;` the canonical order
`a, b` differs from the source order `b, a`, so a warning is emitted with
suggestion `mod a;` then `pub mod b;`; for `pub mod a; mod b;` the
canonical order is `b, a` and the suggestion is `mod b;` then
`pub mod a;`. -/
theorem c4_private_sorts_before_public :
    check_mod c4aItems =
      some [⟨⟨0, 17⟩,
        "module declarations (other than inline modules) should be in alphabetical order!",
        "Try this...\x0a\x0amod a;\x0apub mod b;\x0a"⟩] ∧
    check_mod c4bItems =
      some [⟨⟨0, 17⟩,
        "module declarations (other than inline modules) should be in alphabetical order!",
        "Try this...\x0a\x0amod b;\x0apub mod a;\x0a"⟩] :=
  ⟨by decide, by decide⟩

/-- C6: external-reference declarations are compared by the bound
(post-rename) name: for `extern crate zeta; extern crate alpha as zz;` the
classifier records the names `zeta` and `zz` (not `alpha`), and since
`zeta < zz` the sequence is already canonical — no warning is emitted. -/
theorem c6_extern_crate_renamed_no_warning :
    c6items.foldlM process_item ⟨[], [], []⟩ =
      some ⟨[⟨"zeta", "extern crate", ⟨0, 18⟩, false⟩,
             ⟨"zz", "extern crate alpha as", ⟨19, 44⟩, false⟩], [], []⟩ ∧
    check_mod c6items = some [] :=
  ⟨by decide, by decide⟩

/-! ## Claim C5: macro-import declarations sort to the front -/

theorem charsCmp_cons_gt {a b : Char} (h : b < a) (as bs : List Char) :
    charsCmp (a :: as) (b :: bs) = .gt := by
  simp [charsCmp, h, not_lt_of_gt h]

/-- C5: the front bias is realized by prepending the sentinel `!` to the
biased key exactly when the attribute prefix begins with `#[macro_use]`;
consequently, in the canonical order of any sequence whose records'
(public-biased) display names start with an ordinary printable character
(one above `!`), every position before a macro-import record is itself a
macro-import record — a declaration bearing the macro-import attribute
sorts before every sibling that lacks it, even when its display name is
lexicographically later. -/
theorem c5_macro_use_sorts_first :
    (∀ name attrs, strStartsWith attrs "#[macro_use]" = true →
      sortKey name attrs = "!" ++ str_for_biased_sort name (strEndsWith attrs "pub ") "~") ∧
    ∀ (old : List DeclRecord),
      (old.map fun r => SortRec.mk r.name r.attrs r.warn).all nameOk = true →
      ∀ (i j : Nat) (rj : SortRec), i < j → (canonical old)[j]? = some rj →
        hasMacroUseAttr rj = true →
        ∃ ri, (canonical old)[i]? = some ri ∧ hasMacroUseAttr ri = true := by
  constructor
  · intro name attrs h
    simp [sortKey, str_for_biased_sort, h]
  · intro old hnames i j rj hij hj hmac
    rcases List.getElem?_eq_some_iff.mp hj with ⟨hjlen, hjget⟩
    have hilen : i < (canonical old).length := lt_trans hij hjlen
    refine ⟨(canonical old)[i], List.getElem?_eq_getElem hilen, ?_⟩
    by_contra hmi
    have hmi : hasMacroUseAttr (canonical old)[i] = false := by
      simpa using hmi
    have hsorted : (canonical old).Sorted recordLeP := by
      unfold canonical
      exact List.sorted_insertionSort recordLeP _
    have hrel : recordLeP (canonical old)[i] rj := by
      have := @List.Sorted.rel_get_of_lt _ _ _ hsorted ⟨i, hilen⟩ ⟨j, hjlen⟩
        (Fin.mk_lt_mk.mpr hij)
      rw [List.get_eq_getElem, List.get_eq_getElem] at this
      rwa [hjget] at this
    have hmem : (canonical old)[i] ∈ (old.map fun r => SortRec.mk r.name r.attrs r.warn) :=
      (List.mem_insertionSort recordLeP).mp (List.getElem_mem hilen)
    have hok : nameOk (canonical old)[i] = true :=
      List.all_eq_true.mp hnames _ hmem
    unfold nameOk at hok
    rcases hd : (pubBiasedName (canonical old)[i]).data with _ | ⟨c, cs⟩
    · rw [hd] at hok; simp at hok
    · rw [hd] at hok
      have hc : '!' < c := by simpa using hok
      have hkey_i : sortKey (canonical old)[i].name (canonical old)[i].attrs
          = pubBiasedName (canonical old)[i] := by
        unfold hasMacroUseAttr at hmi
        simp [sortKey, str_for_biased_sort, hmi, pubBiasedName]
      have hkey_j : sortKey rj.name rj.attrs = "!" ++ pubBiasedName rj := by
        unfold hasMacroUseAttr at hmac
        simp [sortKey, str_for_biased_sort, hmac, pubBiasedName]
      unfold recordLeP at hrel
      rw [hkey_i, hkey_j] at hrel
      have hdata : ("!" ++ pubBiasedName rj).data = '!' :: (pubBiasedName rj).data := rfl
      unfold strCmp at hrel
      rw [hdata, hd] at hrel
      exact hrel (charsCmp_cons_gt hc cs (pubBiasedName rj).data)

/-- Witness for C5: a sequence with two macro-import records named after
the plain record; position 0 of the canonical order (before the
macro-import record at position 1) is itself a macro-import record. -/
theorem c5_witness :
    ∃ ri, (canonical c5old)[0]? = some ri ∧ hasMacroUseAttr ri = true :=
  c5_macro_use_sorts_first.2 c5old (by decide) 0 1 ⟨"z", "#[macro_use]\x0a", false⟩
    (by decide) (by decide) (by decide)

/-! ## Claim C8: attribute normalization aborts exactly on non-string
literals -/

mutual
theorem gms_isSome (name : String) :
    (k : MetaItemKind) → (get_meta_as_string name k).isSome = lits_ok k
  | .word => by simp [get_meta_as_string, lits_ok]
  | .list items => by
      have ih := gns_isSome items
      unfold get_meta_as_string lits_ok
      cases h : get_nested_strings items with
      | none => rw [h] at ih; simpa using ih.symm
      | some stuff => rw [h] at ih; simpa using ih.symm
  | .nameValue lit => by
      cases lit <;> simp [get_meta_as_string, lits_ok, format_literal, is_str_lit]

theorem gns_isSome :
    (items : List NestedMetaItemKind) →
      (get_nested_strings items).isSome = nested_lits_ok items
  | [] => by simp [get_nested_strings, nested_lits_ok]
  | .metaItem n k :: rest => by
      have ih1 := gms_isSome n k
      have ih2 := gns_isSome rest
      unfold get_nested_strings nested_lits_ok
      cases h1 : get_meta_as_string n k with
      | none =>
        rw [h1] at ih1
        cases h2 : get_nested_strings rest <;> simp [h1, ← ih1]
      | some s =>
        rw [h1] at ih1
        cases h2 : get_nested_strings rest with
        | none => rw [h2] at ih2; simp [h1, ← ih1, ← ih2]
        | some tl => rw [h2] at ih2; simp [h1, ← ih1, ← ih2]
  | .literal v :: rest => by
      have ih2 := gns_isSome rest
      unfold get_nested_strings nested_lits_ok
      cases h1 : format_literal v with
      | none =>
        have hv : is_str_lit v = false := by cases v <;> simp_all [format_literal, is_str_lit]
        cases h2 : get_nested_strings rest <;> simp [h1, hv]
      | some s =>
        have hv : is_str_lit v = true := by cases v <;> simp_all [format_literal, is_str_lit]
        cases h2 : get_nested_strings rest with
        | none => rw [h2] at ih2; simp [h1, hv, ← ih2]
        | some tl => rw [h2] at ih2; simp [h1, hv, ← ih2]
end

theorem render_attrs_isSome (attrs : List (String × MetaItemKind)) :
    (render_attrs attrs).isSome = attrs.all fun a => lits_ok a.2 := by
  induction attrs with
  | nil => simp [render_attrs]
  | cons a rest ih =>
    obtain ⟨n, k⟩ := a
    have h1 := gms_isSome n k
    unfold render_attrs
    cases hg : get_meta_as_string n k with
    | none =>
      rw [hg] at h1
      cases hr : render_attrs rest <;> simp [← h1]
    | some s =>
      rw [hg] at h1
      cases hr : render_attrs rest with
      | none => rw [hr] at ih; simp [← h1, ← ih]
      | some tl =>
        rw [hr] at ih
        by_cases hdoc : strStartsWith s "doc = " = true <;> simp [hdoc, ← h1, ← ih]

theorem get_item_attrs_isSome (item : Item) (pc : Bool) :
    (get_item_attrs item pc).isSome = (item.attrs.all fun a => lits_ok a.2) := by
  rw [← render_attrs_isSome]
  unfold get_item_attrs
  cases h : render_attrs item.attrs with
  | none => simp
  | some l =>
    simp only [Option.isSome_some]
    split <;> split <;> simp

/-- C8: the rendering functions fail exactly on unrecognized literals — for
any meta item carrying a literal value that is not a string, normalization
aborts (`format_literal` and `get_meta_as_string` return `none`, and so
does `get_item_attrs` for the item, aborting the module's check), while for
metadata whose literal values are all strings the normalization never
aborts. -/
theorem c8_normalization_aborts_iff_non_string_literal :
    (∀ lit, (format_literal lit).isSome = is_str_lit lit) ∧
    (∀ name k, (get_meta_as_string name k).isSome = lits_ok k) ∧
    ∀ (item : Item) (pc : Bool),
      (get_item_attrs item pc).isSome = (item.attrs.all fun a => lits_ok a.2) :=
  ⟨fun lit => by cases lit <;> rfl, fun name k => gms_isSome name k, get_item_attrs_isSome⟩

/-! ## Claim C9: the attribute prefix is a pure function of the metadata
set -/

theorem gns_cons (x : NestedMetaItemKind) (rest : List NestedMetaItemKind) :
    get_nested_strings (x :: rest) =
      match (match x with
             | .metaItem n node => get_meta_as_string n node
             | .literal v => format_literal v), get_nested_strings rest with
      | some hd, some tl => some (hd :: tl)
      | _, _ => none := by
  conv_lhs => rw [get_nested_strings.eq_def]

theorem gns_perm {xs ys : List NestedMetaItemKind} (h : xs.Perm ys) :
    ((get_nested_strings xs).isSome = (get_nested_strings ys).isSome) ∧
    ∀ l₁ l₂, get_nested_strings xs = some l₁ → get_nested_strings ys = some l₂ →
      l₁.Perm l₂ := by
  induction h with
  | nil =>
    refine ⟨rfl, ?_⟩
    intro l₁ l₂ h₁ h₂
    rw [show get_nested_strings [] = some [] from rfl] at h₁ h₂
    injection h₁ with h₁
    injection h₂ with h₂
    subst h₁; subst h₂
    exact List.Perm.refl []
  | cons x h ih =>
    rename_i xs' ys'
    rw [gns_cons x xs', gns_cons x ys']
    cases hsx : (match x with
                 | .metaItem n node => get_meta_as_string n node
                 | .literal v => format_literal v) with
    | none => exact ⟨rfl, fun l₁ l₂ h₁ h₂ => by simp at h₁⟩
    | some hd =>
      cases h₁ : get_nested_strings xs' with
      | none =>
        have h₂ : get_nested_strings ys' = none := by
          have := ih.1
          rw [h₁] at this
          exact Option.not_isSome_iff_eq_none.mp (by rw [← this]; simp)
        rw [h₂]
        exact ⟨rfl, fun l₁ l₂ hl₁ hl₂ => by simp at hl₁⟩
      | some tl₁ =>
        have h₂s : (get_nested_strings ys').isSome = true := by
          rw [← ih.1, h₁]; rfl
        rcases Option.isSome_iff_exists.mp h₂s with ⟨tl₂, h₂⟩
        rw [h₂]
        refine ⟨rfl, ?_⟩
        intro l₁ l₂ hl₁ hl₂
        simp only [Option.some.injEq] at hl₁ hl₂
        subst hl₁; subst hl₂
        exact List.Perm.cons hd (ih.2 tl₁ tl₂ h₁ h₂)
  | swap x y l =>
    rw [gns_cons y (x :: l), gns_cons x l, gns_cons x (y :: l), gns_cons y l]
    cases hsx : (match x with
                 | .metaItem n node => get_meta_as_string n node
                 | .literal v => format_literal v) with
    | none =>
      cases hsy : (match y with
                   | .metaItem n node => get_meta_as_string n node
                   | .literal v => format_literal v) with
      | none => exact ⟨rfl, fun l₁ l₂ h₁ h₂ => by simp at h₁⟩
      | some hdy =>
        cases get_nested_strings l <;>
          exact ⟨rfl, fun l₁ l₂ h₁ h₂ => by simp at h₁⟩
    | some hdx =>
      cases hsy : (match y with
                   | .metaItem n node => get_meta_as_string n node
                   | .literal v => format_literal v) with
      | none =>
        cases get_nested_strings l <;>
          exact ⟨rfl, fun l₁ l₂ h₁ h₂ => by simp at h₂⟩
      | some hdy =>
        cases hgl : get_nested_strings l with
        | none => exact ⟨rfl, fun l₁ l₂ h₁ h₂ => by simp at h₁⟩
        | some tl =>
          refine ⟨rfl, ?_⟩
          intro l₁ l₂ h₁ h₂
          simp only [Option.some.injEq] at h₁ h₂
          subst h₁; subst h₂
          exact List.Perm.swap hdx hdy tl
  | trans h₁ h₂ ih₁ ih₂ =>
    refine ⟨ih₁.1.trans ih₂.1, ?_⟩
    intro l₁ l₂ hl₁ hl₂
    rename_i as bs cs
    have hbs : (get_nested_strings bs).isSome = true := by
      rw [← ih₁.1, hl₁]; rfl
    rcases Option.isSome_iff_exists.mp hbs with ⟨lb, hlb⟩
    exact (ih₁.2 l₁ lb hl₁ hlb).trans (ih₂.2 lb l₂ hlb hl₂)

theorem gms_permStep {k k' : MetaItemKind} (h : MetaPermStep k k') (name : String) :
    get_meta_as_string name k = get_meta_as_string name k' := by
  cases h with
  | refl k => rfl
  | listPerm hperm =>
    rename_i xs ys
    have h2 := gns_perm hperm
    unfold get_meta_as_string
    cases h1 : get_nested_strings xs with
    | none =>
      have hn : get_nested_strings ys = none := by
        have := h2.1
        rw [h1] at this
        exact Option.not_isSome_iff_eq_none.mp (by rw [← this]; simp)
      rw [hn]
    | some l₁ =>
      have hs : (get_nested_strings ys).isSome = true := by
        rw [← h2.1, h1]; rfl
      rcases Option.isSome_iff_exists.mp hs with ⟨l₂, hl₂⟩
      rw [hl₂]
      have hperm' : l₁.Perm l₂ := h2.2 l₁ l₂ h1 hl₂
      simp [insertionSort_eq_of_perm strLeP hperm']

theorem render_attrs_cons (n : String) (k : MetaItemKind)
    (rest : List (String × MetaItemKind)) :
    render_attrs ((n, k) :: rest) =
      match get_meta_as_string n k, render_attrs rest with
      | some s, some tl =>
          if strStartsWith s "doc = " then some tl else some (("#[" ++ s ++ "]") :: tl)
      | _, _ => none := rfl

theorem render_attrs_forall₂ {xs mid : List (String × MetaItemKind)}
    (h : List.Forall₂ AttrEquiv xs mid) : render_attrs xs = render_attrs mid := by
  induction h with
  | nil => rfl
  | cons hab hrest ih =>
    rename_i a b xs' mid'
    obtain ⟨n₁, k₁⟩ := a
    obtain ⟨n₂, k₂⟩ := b
    obtain ⟨hn, hstep⟩ := hab
    have hn' : n₁ = n₂ := hn
    subst hn'
    rw [render_attrs_cons, render_attrs_cons, ih, gms_permStep hstep n₁]

theorem render_attrs_perm {xs ys : List (String × MetaItemKind)} (h : xs.Perm ys) :
    ((render_attrs xs).isSome = (render_attrs ys).isSome) ∧
    ∀ l₁ l₂, render_attrs xs = some l₁ → render_attrs ys = some l₂ → l₁.Perm l₂ := by
  induction h with
  | nil =>
    refine ⟨rfl, ?_⟩
    intro l₁ l₂ h₁ h₂
    rw [show render_attrs [] = some [] from rfl] at h₁ h₂
    injection h₁ with h₁
    injection h₂ with h₂
    subst h₁; subst h₂
    exact List.Perm.refl []
  | cons x h ih =>
    rename_i xs' ys'
    obtain ⟨n, k⟩ := x
    rw [render_attrs_cons n k xs', render_attrs_cons n k ys']
    cases hs : get_meta_as_string n k with
    | none => exact ⟨rfl, fun l₁ l₂ h₁ h₂ => by simp at h₁⟩
    | some s =>
      cases h₁ : render_attrs xs' with
      | none =>
        have h₂ : render_attrs ys' = none := by
          have := ih.1
          rw [h₁] at this
          exact Option.not_isSome_iff_eq_none.mp (by rw [← this]; simp)
        rw [h₂]
        exact ⟨rfl, fun l₁ l₂ ha hb => by simp at ha⟩
      | some tl₁ =>
        have h₂s : (render_attrs ys').isSome = true := by rw [← ih.1, h₁]; rfl
        rcases Option.isSome_iff_exists.mp h₂s with ⟨tl₂, h₂⟩
        rw [h₂]
        have hperm := ih.2 tl₁ tl₂ h₁ h₂
        cases hdoc : strStartsWith s "doc = " with
        | true =>
          simp only [hdoc, if_true]
          exact ⟨rfl, fun l₁ l₂ ha hb => by
            simp only [Option.some.injEq] at ha hb
            subst ha; subst hb
            exact hperm⟩
        | false =>
          simp only [hdoc, Bool.false_eq_true, if_false]
          exact ⟨rfl, fun l₁ l₂ ha hb => by
            simp only [Option.some.injEq] at ha hb
            subst ha; subst hb
            exact List.Perm.cons _ hperm⟩
  | swap x y l =>
    obtain ⟨nx, kx⟩ := x
    obtain ⟨ny, ky⟩ := y
    rw [render_attrs_cons ny ky ((nx, kx) :: l), render_attrs_cons nx kx l,
        render_attrs_cons nx kx ((ny, ky) :: l), render_attrs_cons ny ky l]
    cases hsx : get_meta_as_string nx kx with
    | none =>
      cases hsy : get_meta_as_string ny ky with
      | none => exact ⟨rfl, fun l₁ l₂ ha hb => by simp at ha⟩
      | some sy =>
        cases render_attrs l <;>
          exact ⟨rfl, fun l₁ l₂ ha hb => by simp at ha⟩
    | some sx =>
      cases hsy : get_meta_as_string ny ky with
      | none =>
        cases render_attrs l <;>
          exact ⟨rfl, fun l₁ l₂ ha hb => by simp at ha⟩
      | some sy =>
        cases hl : render_attrs l with
        | none => exact ⟨rfl, fun l₁ l₂ ha hb => by simp at ha⟩
        | some tl =>
          cases hdx : strStartsWith sx "doc = " <;> cases hdy : strStartsWith sy "doc = "
          · refine ⟨by simp [hdx, hdy], fun l₁ l₂ ha hb => ?_⟩
            simp [hdx, hdy] at ha hb
            subst ha; subst hb
            exact List.Perm.swap _ _ tl
          · refine ⟨by simp [hdx, hdy], fun l₁ l₂ ha hb => ?_⟩
            simp [hdx, hdy] at ha hb
            subst ha; subst hb
            exact List.Perm.refl _
          · refine ⟨by simp [hdx, hdy], fun l₁ l₂ ha hb => ?_⟩
            simp [hdx, hdy] at ha hb
            subst ha; subst hb
            exact List.Perm.refl _
          · refine ⟨by simp [hdx, hdy], fun l₁ l₂ ha hb => ?_⟩
            simp [hdx, hdy] at ha hb
            subst ha; subst hb
            exact List.Perm.refl _
  | trans h₁ h₂ ih₁ ih₂ =>
    rename_i as bs cs
    refine ⟨ih₁.1.trans ih₂.1, ?_⟩
    intro l₁ l₂ hl₁ hl₂
    have hbs : (render_attrs bs).isSome = true := by rw [← ih₁.1, hl₁]; rfl
    rcases Option.isSome_iff_exists.mp hbs with ⟨lb, hlb⟩
    exact (ih₁.2 l₁ lb hl₁ hlb).trans (ih₂.2 lb l₂ hlb hl₂)

/-- C9: the rendered attribute prefix is a pure function of the set of an
item's metadata entries, its visibility, and the `pub_check` flag: for any
permutation of the source attribute list composed with permutations of the
entries inside list-valued metadata items, `get_item_attrs` is unchanged
(attributes and nested entries are always re-sorted, never kept in source
order). -/
theorem c9_attr_prefix_pure_function (name : String) (span : Span) (vis : Visibility)
    (node : ItemKind) (pc : Bool) (attrs₁ attrs₂ : List (String × MetaItemKind))
    (h : AttrsPermEquiv attrs₁ attrs₂) :
    get_item_attrs ⟨name, span, attrs₁, vis, node⟩ pc
      = get_item_attrs ⟨name, span, attrs₂, vis, node⟩ pc := by
  obtain ⟨mid, hf, hp⟩ := h
  have h1 : render_attrs attrs₁ = render_attrs mid := render_attrs_forall₂ hf
  have h2 := render_attrs_perm hp
  unfold get_item_attrs
  simp only []
  rw [h1]
  cases hm : render_attrs mid with
  | none =>
    have hn : render_attrs attrs₂ = none := by
      have := h2.1
      rw [hm] at this
      exact Option.not_isSome_iff_eq_none.mp (by rw [← this]; simp)
    rw [hn]
  | some l₁ =>
    have hsome : (render_attrs attrs₂).isSome = true := by rw [← h2.1, hm]; rfl
    rcases Option.isSome_iff_exists.mp hsome with ⟨l₂, hl₂⟩
    rw [hl₂]
    have hperm := h2.2 l₁ l₂ hm hl₂
    have hsort : l₁.insertionSort attrLeP = l₂.insertionSort attrLeP :=
      insertionSort_eq_of_perm attrLeP hperm
    simp only [hsort]

/-- Witness for C9: the attribute list `#[cold] #[cfg(unix, windows)]` and
its double permutation (attribute order and nested entry order both
reversed) render to the same prefix. -/
theorem c9_witness :
    get_item_attrs ⟨"x", ⟨0, 1⟩, c9attrsA, .inherited, .modItem false⟩ true
      = get_item_attrs ⟨"x", ⟨0, 1⟩, c9attrsB, .inherited, .modItem false⟩ true := by
  apply c9_attr_prefix_pure_function "x" ⟨0, 1⟩ .inherited (.modItem false) true c9attrsA c9attrsB
  refine ⟨c9attrsMid, ?_, ?_⟩
  · unfold c9attrsA c9attrsMid
    refine List.Forall₂.cons ⟨rfl, MetaPermStep.refl _⟩
      (List.Forall₂.cons ⟨rfl, MetaPermStep.listPerm ?_⟩ List.Forall₂.nil)
    exact List.Perm.swap _ _ _
  · unfold c9attrsMid c9attrsB
    exact List.Perm.swap _ _ _

/-! ## Claim C10: only the bare `#[macro_use]` is biased -/

/-- C10: the front-of-group macro-import bias applies only to the bare
attribute rendered exactly as `#[macro_use]`: the attribute comparator
special-cases only that exact string (any other pair compares as plain
strings), the front sentinel is prepended only when the attribute prefix
starts with that exact string, a parameterized `#[macro_use(lazy_static)]`
prefix does not start with it, and an item whose only macro-import
attribute is parameterized gets no bias in either place — its attributes
sort plainly and it is ordered among siblings as an ordinary item, while
the bare attribute is forced first in both. -/
theorem c10_only_bare_macro_use_biased :
    (∀ a b : String, a ≠ "#[macro_use]" → b ≠ "#[macro_use]" →
      attrCmp a b = strCmp a b) ∧
    (∀ name attrs, strStartsWith attrs "#[macro_use]" = false →
      sortKey name attrs = str_for_biased_sort name (strEndsWith attrs "pub ") "~") ∧
    strStartsWith "#[macro_use(lazy_static)]\x0a" "#[macro_use]" = false ∧
    get_item_attrs c10ParamItem true = some "#[cold]\x0a#[macro_use(lazy_static)]\x0a" ∧
    get_item_attrs c10BareItem true = some "#[macro_use]\x0a#[cold]\x0a" ∧
    [c10ParamRec, c10PlainRec].insertionSort recordLeP = [c10PlainRec, c10ParamRec] ∧
    [c10BareRec, c10PlainRec].insertionSort recordLeP = [c10BareRec, c10PlainRec] := by
  refine ⟨?_, ?_, by decide, by decide, by decide, by decide, by decide⟩
  · intro a b ha hb
    simp [attrCmp, ha, hb]
  · intro name attrs h
    simp [sortKey, str_for_biased_sort, h]

/-- Witness for C10: two ordinary attribute strings compare plainly under
the attribute comparator. -/
theorem c10_witness :
    attrCmp "#[cold]" "#[allow(dead_code)]" = strCmp "#[cold]" "#[allow(dead_code)]" :=
  c10_only_bare_macro_use_biased.1 "#[cold]" "#[allow(dead_code)]" (by decide) (by decide)
